import Mathlib

/-!
Verification of the recurring-booking generator
(`supabase/functions/generate-repeated-bookings/index.ts`) of the
bright-sloth-crawl room-booking application.

The generator is embedded shallowly: calendar dates are triples
(year, month, day) of naturals, date-fns operations (`addDays`,
`addWeeks`, `addMonths`, `getDay`, `getDate`, `getWeekOfMonth`,
`isBefore`) are modelled as pure functions on that representation, the
Supabase conflict query is a filter over an explicit list of existing
bookings, and the request handler's generation loop is a fuel-indexed
recursion whose fuel is the source's `MAX_ITERATIONS` guard.
-/

namespace BrightSloth

/-- Gregorian leap-year test (as used by JavaScript `Date` month lengths). -/
def isLeapYear (y : Nat) : Bool :=
  (y % 4 == 0 && y % 100 != 0) || y % 400 == 0

/-- Number of days of month `m` (1-12) of year `y`; the value of the
source's `getDate(new Date(y, m, 0))` idiom. -/
def daysInMonth (y m : Nat) : Nat :=
  match m with
  | 1 => 31
  | 2 => if isLeapYear y then 29 else 28
  | 3 => 31
  | 4 => 30
  | 5 => 31
  | 6 => 30
  | 7 => 31
  | 8 => 31
  | 9 => 30
  | 10 => 31
  | 11 => 30
  | 12 => 31
  | _ => 0

/-- A calendar date, the shallow embedding of a date-fns `Date` holding a
midnight timestamp (only dates, never times of day, flow through the
generator). -/
structure CDate where
  year : Nat
  month : Nat
  day : Nat
  deriving DecidableEq, Repr

/-- Days contributed by the months before month `m` in a non-leap year. -/
def monthOffset (m : Nat) : Nat :=
  match m with
  | 1 => 0
  | 2 => 31
  | 3 => 59
  | 4 => 90
  | 5 => 120
  | 6 => 151
  | 7 => 181
  | 8 => 212
  | 9 => 243
  | 10 => 273
  | 11 => 304
  | 12 => 334
  | _ => 365

/-- Days from Jan 1 of year `y` to the first day of month `m` of year `y`. -/
def daysBeforeMonth (y m : Nat) : Nat :=
  monthOffset m + (if 3 ≤ m then (if isLeapYear y then 1 else 0) else 0)

/-- Days in the years `0, 1, ..., y - 1` of the proleptic Gregorian
calendar (`365 y` plus one day per leap year strictly below `y`). -/
def daysBeforeYear (y : Nat) : Nat :=
  365 * y + (y + 3) / 4 - (y + 99) / 100 + (y + 399) / 400

/-- Linear day number of a date: the embedding of the timestamp a
date-fns `Date` carries, at day granularity. -/
def toDays (d : CDate) : Nat :=
  daysBeforeYear d.year + daysBeforeMonth d.year d.month + (d.day - 1)

/-- date-fns `getDay`: 0 = Sunday, ..., 5 = Friday, 6 = Saturday.
The constant 6 calibrates the epoch so that 2024-01-01 is a Monday. -/
def dayOfWeek (d : CDate) : Nat :=
  (toDays d + 6) % 7

/-- The date denotes an existing day of the Gregorian calendar. -/
def isValidDate (d : CDate) : Prop :=
  1 ≤ d.month ∧ d.month ≤ 12 ∧ 1 ≤ d.day ∧ d.day ≤ daysInMonth d.year d.month

instance (d : CDate) : Decidable (isValidDate d) := by
  unfold isValidDate
  infer_instance

/-- The calendar successor of a valid date; date-fns `addDays(d, 1)`. -/
def nextDay (d : CDate) : CDate :=
  if d.day < daysInMonth d.year d.month then ⟨d.year, d.month, d.day + 1⟩
  else if d.month < 12 then ⟨d.year, d.month + 1, 1⟩
  else ⟨d.year + 1, 1, 1⟩

/-- date-fns `addDays(d, n)` on valid dates. -/
def addDaysN (d : CDate) (n : Nat) : CDate :=
  nextDay^[n] d

/-- date-fns `addMonths(d, 1)`: same day one month later, clamped to the
length of the target month. -/
def addMonths1 (d : CDate) : CDate :=
  let y := if d.month = 12 then d.year + 1 else d.year
  let m := if d.month = 12 then 1 else d.month + 1
  ⟨y, m, min d.day (daysInMonth y m)⟩

/-- The source's Saturday-counting loop (`for d = 1 to getDate(currentDate)`,
counting days whose `getDay` is 6): which Saturday of its month a date is. -/
def saturdayCount (d : CDate) : Nat :=
  (List.range d.day).countP (fun i => dayOfWeek ⟨d.year, d.month, i + 1⟩ == 6)

/-- The source's `totalSaturdaysInMonth` loop: Saturdays in the whole month
of `d` (the loop bound is `getDate(lastDayOfMonth)`). -/
def totalSaturdaysInMonth (d : CDate) : Nat :=
  (List.range (daysInMonth d.year d.month)).countP
    (fun i => dayOfWeek ⟨d.year, d.month, i + 1⟩ == 6)

/-- date-fns `getWeekOfMonth` with the default `weekStartsOn = 0`:
`lastDayOfFirstWeek = 7 - getDay(startOfMonth)`, then
`Math.ceil((day - lastDayOfFirstWeek) / 7) + 1`. -/
def getWeekOfMonth (d : CDate) : Int :=
  let startWeekDay : Int := dayOfWeek ⟨d.year, d.month, 1⟩
  let lastDayOfFirstWeek : Int := 7 - startWeekDay
  ((d.day : Int) - lastDayOfFirstWeek + 6).fdiv 7 + 1

/-- The final revision's exclusion rule for `repeatType === 'daily'`
(lines 55-93 of `generate-repeated-bookings/index.ts`): skip Fridays, and
skip the 1st and 3rd Saturdays, and the 4th Saturday when the month has at
least 4 Saturdays. -/
def shouldExcludeDaily (d : CDate) : Bool :=
  let dow := dayOfWeek d
  if dow == 5 then true
  else if dow == 6 then
    let cnt := saturdayCount d
    if cnt == 1 || cnt == 3 then true
    else if cnt == 4 then
      if 4 ≤ totalSaturdaysInMonth d then true else false
    else false
  else false

/-- The earlier revision's exclusion rule (the `getWeekOfMonth`-based
variant): skip Fridays, and skip Saturdays whose week-of-month is 1, 3
or 4. -/
def shouldExcludeDailyEarlier (d : CDate) : Bool :=
  let dow := dayOfWeek d
  if dow == 5 then true
  else if dow == 6 then
    let w := getWeekOfMonth d
    if w == 1 || w == 3 || w == 4 then true else false
  else false

/-- The `initialBooking` field of the request body: the template booking
the client already persisted. Times are minutes since midnight (Postgres
`time` values compare chronologically). -/
structure InitialBooking where
  id : String
  room_id : String
  title : String
  date : CDate
  start_time : Nat
  end_time : Nat
  remarks : String
  deriving DecidableEq, Repr

/-- A persisted row of the `bookings` table, as seen by the conflict
query (`select id ... eq room_id, eq date, lt start_time, gt end_time,
neq id`). -/
structure DbBooking where
  id : String
  room_id : String
  date : CDate
  start_time : Nat
  end_time : Nat
  deriving DecidableEq, Repr

/-- A row pushed onto `bookingsToInsert`. -/
structure BookingRow where
  user_id : String
  room_id : String
  title : String
  date : CDate
  start_time : Nat
  end_time : Nat
  remarks : String
  deriving DecidableEq, Repr

/-- The `repeatType` discriminator; `other` stands for `no_repeat` and any
unrecognised string, which hit the final `else { break; }` branch. -/
inductive RepeatType where
  | daily
  | weekly
  | monthly
  | custom
  | other
  deriving DecidableEq, Repr

/-- The conflict query: existing bookings of the same room on the proposed
date whose half-open time interval overlaps the candidate's, the initial
booking itself excluded (`neq('id', initialBooking.id)`). -/
def conflictsFor (db : List DbBooking) (init : InitialBooking) (d : CDate) :
    List DbBooking :=
  db.filter (fun b =>
    b.room_id == init.room_id && b.date == d &&
    decide (b.start_time < init.end_time) &&
    decide (init.start_time < b.end_time) && b.id != init.id)

/-- `conflicts && conflicts.length > 0` of the source. -/
def hasConflict (db : List DbBooking) (init : InitialBooking) (d : CDate) :
    Bool :=
  decide (0 < (conflictsFor db init d).length)

/-- date-fns `isBefore` on the midnight timestamps the generator handles. -/
def isBefore (a b : CDate) : Bool :=
  decide (toDays a < toDays b)

/-- The monthly stepping branch (lines 137-145): advance one month from
`cur` and re-clamp the template's original day-of-month to the length of
the target month. -/
def monthlyNext (templateDate cur : CDate) : CDate :=
  let nm := addMonths1 cur
  let lastDayOfNextMonth := daysInMonth nm.year nm.month
  ⟨nm.year, nm.month, min templateDate.day lastDayOfNextMonth⟩

/-- The `// Move to the next date based on repeat type` chain
(lines 132-148); `none` embeds the `break` of the final `else`. -/
def nextCandidate (rt : RepeatType) (templateDate cur : CDate) :
    Option CDate :=
  match rt with
  | .daily => some (nextDay cur)
  | .custom => some (nextDay cur)
  | .weekly => some (addDaysN cur 7)
  | .monthly => some (monthlyNext templateDate cur)
  | .other => none

/-- The per-candidate exclusion step: the `if (repeatType === 'daily')`
guard of lines 55-93 — only `daily` consults the exclusion calendar. -/
def shouldExclude (rt : RepeatType) (d : CDate) : Bool :=
  match rt with
  | .daily => shouldExcludeDaily d
  | _ => false

/-- The row pushed onto `bookingsToInsert` for an accepted candidate. -/
def mkRow (userId : String) (init : InitialBooking) (d : CDate) :
    BookingRow :=
  ⟨userId, init.room_id, init.title, d, init.start_time, init.end_time,
    init.remarks⟩

/-- `endDate === null || !isBefore(endDate, currentDate)` of the loop
condition. -/
def endGuard (endDate : Option CDate) (cur : CDate) : Bool :=
  match endDate with
  | none => true
  | some e => !(isBefore e cur)

/-- `const MAX_ITERATIONS = 365 * 2`. -/
def MAX_ITERATIONS : Nat := 365 * 2

/-- The candidate-generation `while` loop, fuel-indexed by the remaining
iteration budget (`iterationCount < MAX_ITERATIONS`): each iteration
checks the end-date guard, applies exclusion then the conflict check,
pushes the accepted row, and steps to the next candidate (or breaks for
an unknown repeat type). -/
def genLoop (db : List DbBooking) (init : InitialBooking) (userId : String)
    (rt : RepeatType) (endDate : Option CDate) (fuel : Nat) (cur : CDate)
    (acc : List BookingRow) : List BookingRow :=
  match fuel with
  | 0 => acc
  | fuel2 + 1 =>
    if endGuard endDate cur then
      let shouldBook := !shouldExclude rt cur && !hasConflict db init cur
      let acc2 := if shouldBook then acc ++ [mkRow userId init cur] else acc
      match nextCandidate rt init.date cur with
      | some nxt => genLoop db init userId rt endDate fuel2 nxt acc2
      | none => acc2
    else acc

/-- `bookingsToInsert` after the loop: candidates start at the template's
own date with a fresh accumulator and the full iteration budget. -/
def generateBookings (db : List DbBooking) (init : InitialBooking)
    (rt : RepeatType) (endDate : Option CDate) (userId : String) :
    List BookingRow :=
  genLoop db init userId rt endDate MAX_ITERATIONS init.date []

/-- `filteredBookingsToInsert`: drop rows matching the template's own
date/start/end combination (the client already inserted the first
occurrence). -/
def filteredBookingsToInsert (db : List DbBooking) (init : InitialBooking)
    (rt : RepeatType) (endDate : Option CDate) (userId : String) :
    List BookingRow :=
  (generateBookings db init rt endDate userId).filter (fun b =>
    !(b.date == init.date && b.start_time == init.start_time &&
      b.end_time == init.end_time))

/-- The generation loop with the exclusion-calendar step removed, used to
state that a repeat type is not filtered by the exclusion calendar:
candidates are dropped only by the conflict check. -/
def genLoopNoExcl (db : List DbBooking) (init : InitialBooking)
    (userId : String) (rt : RepeatType) (endDate : Option CDate)
    (fuel : Nat) (cur : CDate) (acc : List BookingRow) : List BookingRow :=
  match fuel with
  | 0 => acc
  | fuel2 + 1 =>
    if endGuard endDate cur then
      let shouldBook := !hasConflict db init cur
      let acc2 := if shouldBook then acc ++ [mkRow userId init cur] else acc
      match nextCandidate rt init.date cur with
      | some nxt => genLoopNoExcl db init userId rt endDate fuel2 nxt acc2
      | none => acc2
    else acc

/-- `generateBookings` with the exclusion calendar disabled. -/
def generateBookingsNoExcl (db : List DbBooking) (init : InitialBooking)
    (rt : RepeatType) (endDate : Option CDate) (userId : String) :
    List BookingRow :=
  genLoopNoExcl db init userId rt endDate MAX_ITERATIONS init.date []

/-- Body of the JSON response. -/
inductive RespBody where
  | err (msg : String)
  | ok (msg : String) (count : Nat)
  deriving DecidableEq, Repr

/-- An HTTP response: status code and JSON body. -/
structure HttpResp where
  status : Nat
  body : RespBody
  deriving DecidableEq, Repr

/-- The success message of the 200 response. -/
def successMessage : String := "Repeated bookings generated successfully."

/-- Lines 163-184: attempt the bulk insert when the filtered batch is
non-empty (`insertFn` is the storage collaborator, returning an error
message on failure); an insert error returns 500 with the error message,
otherwise 200 with the batch length as `count`. -/
def finishInsert (insertFn : List BookingRow → Option String)
    (rows : List BookingRow) : HttpResp :=
  if 0 < rows.length then
    match insertFn rows with
    | some msg => ⟨500, .err msg⟩
    | none => ⟨200, .ok successMessage rows.length⟩
  else ⟨200, .ok successMessage rows.length⟩

/-- The whole request pipeline after parameter validation: generate,
filter the template row out, then persist and respond. -/
def handleRequest (db : List DbBooking) (init : InitialBooking)
    (rt : RepeatType) (endDate : Option CDate) (userId : String)
    (insertFn : List BookingRow → Option String) : HttpResp :=
  finishInsert insertFn (filteredBookingsToInsert db init rt endDate userId)

/-- Saturday count of a month start-weekday/day pair, abstracted from
the year and month. -/
def satAux (w n : Nat) : Nat :=
  (List.range n).countP (fun i => (w + i) % 7 == 6)

/-- Week-of-month of a start-weekday/day pair, abstracted from the year
and month. -/
def womAux (w dd : Nat) : Int :=
  ((dd : Int) - (7 - (w : Int)) + 6).fdiv 7 + 1

/-- The final rule as a function of the month's start weekday, the day
of month, and the month length. -/
def exclFinalAux (w dd len : Nat) : Bool :=
  let dow := (w + (dd - 1)) % 7
  if dow == 5 then true
  else if dow == 6 then
    let cnt := satAux w dd
    if cnt == 1 || cnt == 3 then true
    else if cnt == 4 then
      if 4 ≤ satAux w len then true else false
    else false
  else false

/-- The earlier rule as a function of the month's start weekday and the
day of month. -/
def exclEarlierAux (w dd : Nat) : Bool :=
  let dow := (w + (dd - 1)) % 7
  if dow == 5 then true
  else if dow == 6 then
    let wom := womAux w dd
    if wom == 1 || wom == 3 || wom == 4 then true else false
  else false

/-- Boolean form of the agreement check for one start-weekday, month
length and day of month. -/
def exclAuxCheck (w len dd : Nat) : Bool :=
  !(decide (28 ≤ len) && decide (1 ≤ dd) && decide (dd ≤ len)) ||
    (exclEarlierAux w dd == exclFinalAux w dd len)

/-- A sample template booking: room R1, Monday 2024-01-01, 10:00-11:00
(the end-to-end example of the specification). -/
def sampleBooking : InitialBooking :=
  ⟨"booking-0", "R1", "Weekly sync", ⟨2024, 1, 1⟩, 600, 660, ""⟩

/-- A template booking on Thursday 2024-01-04, 10:00-11:00. -/
def thursdayBooking : InitialBooking :=
  ⟨"booking-1", "R1", "Handover", ⟨2024, 1, 4⟩, 600, 660, ""⟩

/-- An existing persisted booking occupying R1 on 2024-01-15,
10:00-11:00. -/
def existingBooking : DbBooking :=
  ⟨"existing-1", "R1", ⟨2024, 1, 15⟩, 600, 660⟩

/-! ### Calendar arithmetic lemmas -/

theorem isLeapYear_iff (y : Nat) :
    isLeapYear y = true ↔ ((y % 4 = 0 ∧ ¬ y % 100 = 0) ∨ y % 400 = 0) := by
  simp [isLeapYear]

set_option maxHeartbeats 3200000 in
theorem daysBeforeYear_succ (y : Nat) :
    daysBeforeYear (y + 1) =
      daysBeforeYear y + 365 + (if isLeapYear y then 1 else 0) := by
  cases hl : isLeapYear y with
  | false =>
    have h : ¬ ((y % 4 = 0 ∧ ¬ y % 100 = 0) ∨ y % 400 = 0) := by
      rw [← isLeapYear_iff, hl]
      simp
    simp only [hl, Bool.false_eq_true, if_false]
    unfold daysBeforeYear
    omega
  | true =>
    have h := (isLeapYear_iff y).mp hl
    simp only [hl, if_true]
    unfold daysBeforeYear
    omega

theorem daysBeforeMonth_succ (y : Nat) (m : Nat) (h1 : 1 ≤ m)
    (h2 : m ≤ 11) :
    daysBeforeMonth y (m + 1) = daysBeforeMonth y m + daysInMonth y m := by
  interval_cases m <;>
    cases h : isLeapYear y <;>
      simp [daysBeforeMonth, daysInMonth, monthOffset, h]

theorem daysInMonth_bounds (y m : Nat) (h1 : 1 ≤ m) (h2 : m ≤ 12) :
    28 ≤ daysInMonth y m ∧ daysInMonth y m ≤ 31 := by
  interval_cases m <;> cases h : isLeapYear y <;>
    simp [daysInMonth, h]

theorem daysBeforeMonth_twelve (y : Nat) :
    daysBeforeMonth y 12 = 334 + (if isLeapYear y then 1 else 0) := by
  cases h : isLeapYear y <;> simp [daysBeforeMonth, monthOffset, h]

theorem toDays_mk (y m dd : Nat) :
    toDays ⟨y, m, dd⟩ = daysBeforeYear y + daysBeforeMonth y m + (dd - 1) :=
  rfl

theorem daysBeforeMonth_one (y : Nat) : daysBeforeMonth y 1 = 0 := by
  simp [daysBeforeMonth, monthOffset]

theorem toDays_nextDay (d : CDate) (h : isValidDate d) :
    toDays (nextDay d) = toDays d + 1 := by
  obtain ⟨hm1, hm2, hd1, hd2⟩ := h
  obtain ⟨y, m, dd⟩ := d
  simp only at hm1 hm2 hd1 hd2
  unfold nextDay
  simp only
  split
  case isTrue hlt =>
    rw [toDays_mk, toDays_mk]
    omega
  case isFalse hge =>
    have hday : dd = daysInMonth y m := by omega
    split
    case isTrue hm =>
      have hrec := daysBeforeMonth_succ y m hm1 (by omega)
      rw [toDays_mk, toDays_mk]
      omega
    case isFalse hm =>
      have hm12 : m = 12 := by omega
      have hy := daysBeforeYear_succ y
      have ht := daysBeforeMonth_twelve y
      have hone := daysBeforeMonth_one (y + 1)
      have h31 : daysInMonth y 12 = 31 := rfl
      subst hm12
      rw [toDays_mk, toDays_mk]
      omega

theorem isValidDate_nextDay (d : CDate) (h : isValidDate d) :
    isValidDate (nextDay d) := by
  obtain ⟨hm1, hm2, hd1, hd2⟩ := h
  obtain ⟨y, m, dd⟩ := d
  simp only at hm1 hm2 hd1 hd2
  unfold nextDay
  simp only
  split
  case isTrue hlt =>
    unfold isValidDate
    dsimp only
    omega
  case isFalse hge =>
    split
    case isTrue hm =>
      have hb := (daysInMonth_bounds y (m + 1) (by omega) (by omega)).1
      unfold isValidDate
      dsimp only
      omega
    case isFalse hm =>
      have h31 : daysInMonth (y + 1) 1 = 31 := rfl
      unfold isValidDate
      dsimp only
      omega

theorem addDaysN_spec (n : Nat) (d : CDate) (h : isValidDate d) :
    isValidDate (addDaysN d n) ∧ toDays (addDaysN d n) = toDays d + n := by
  induction n with
  | zero => simpa [addDaysN] using h
  | succ k ih =>
    have hk := ih
    have hv := hk.1
    constructor
    · simpa [addDaysN, Function.iterate_succ_apply'] using
        isValidDate_nextDay _ hv
    · have := toDays_nextDay _ hv
      simp only [addDaysN, Function.iterate_succ_apply'] at *
      omega

theorem addMonths1_month_pos (d : CDate) (h1 : 1 ≤ d.month)
    (h2 : d.month ≤ 12) :
    1 ≤ (addMonths1 d).month ∧ (addMonths1 d).month ≤ 12 := by
  unfold addMonths1
  by_cases h : d.month = 12 <;> simp [h] <;> omega

/-- The month index `12 * year + month` advances by exactly one under
`addMonths1` whenever the month field is in range. -/
theorem addMonths1_monthIndex (d : CDate) :
    12 * (addMonths1 d).year + (addMonths1 d).month =
      12 * d.year + d.month + 1 := by
  unfold addMonths1
  by_cases h12 : d.month = 12 <;> simp [h12] <;> omega

theorem monthlyNext_monthIndex (t d : CDate) :
    12 * (monthlyNext t d).year + (monthlyNext t d).month =
      12 * d.year + d.month + 1 := by
  have := addMonths1_monthIndex d
  simpa [monthlyNext] using this

theorem isValidDate_monthlyNext (t d : CDate) (ht : 1 ≤ t.day)
    (h : isValidDate d) : isValidDate (monthlyNext t d) := by
  obtain ⟨hm1, hm2, hd1, hd2⟩ := h
  have hb := addMonths1_month_pos d hm1 hm2
  have hdim := (daysInMonth_bounds (addMonths1 d).year (addMonths1 d).month
    hb.1 hb.2).1
  unfold isValidDate
  simp only [monthlyNext]
  omega

theorem toDays_monthlyNext_lt (t d : CDate) (ht : 1 ≤ t.day)
    (h : isValidDate d) : toDays d < toDays (monthlyNext t d) := by
  obtain ⟨hm1, hm2, hd1, hd2⟩ := h
  obtain ⟨y, m, dd⟩ := d
  simp only at hm1 hm2 hd1 hd2
  by_cases h12 : m = 12
  · subst h12
    have hy := daysBeforeYear_succ y
    have ht12 := daysBeforeMonth_twelve y
    have h31 : daysInMonth y 12 = 31 := rfl
    have hone := daysBeforeMonth_one (y + 1)
    have h311 : daysInMonth (y + 1) 1 = 31 := rfl
    have hnm : monthlyNext t ⟨y, 12, dd⟩ =
        ⟨y + 1, 1, min t.day (daysInMonth (y + 1) 1)⟩ := by
      simp [monthlyNext, addMonths1]
    rw [hnm, toDays_mk, toDays_mk]
    omega
  · have hrec := daysBeforeMonth_succ y m hm1 (by omega)
    have hnm : monthlyNext t ⟨y, m, dd⟩ =
        ⟨y, m + 1, min t.day (daysInMonth y (m + 1))⟩ := by
      simp [monthlyNext, addMonths1, h12]
    have hdim1 := (daysInMonth_bounds y (m + 1) (by omega) (by omega)).1
    rw [hnm, toDays_mk, toDays_mk]
    omega

/-- Every stepping branch of the loop produces a strictly later valid
date (given a valid current date and a template day-of-month of at
least 1). -/
theorem nextCandidate_spec (rt : RepeatType) (t cur nxt : CDate)
    (ht : 1 ≤ t.day) (hc : isValidDate cur)
    (h : nextCandidate rt t cur = some nxt) :
    toDays cur < toDays nxt ∧ isValidDate nxt := by
  cases rt with
  | daily =>
    simp only [nextCandidate, Option.some.injEq] at h
    subst h
    exact ⟨by have := toDays_nextDay cur hc; omega,
      isValidDate_nextDay cur hc⟩
  | custom =>
    simp only [nextCandidate, Option.some.injEq] at h
    subst h
    exact ⟨by have := toDays_nextDay cur hc; omega,
      isValidDate_nextDay cur hc⟩
  | weekly =>
    simp only [nextCandidate, Option.some.injEq] at h
    subst h
    have h7 := addDaysN_spec 7 cur hc
    exact ⟨by omega, h7.1⟩
  | monthly =>
    simp only [nextCandidate, Option.some.injEq] at h
    subst h
    exact ⟨toDays_monthlyNext_lt t cur ht hc,
      isValidDate_monthlyNext t cur ht hc⟩
  | other => exact Option.noConfusion h

/-! ### Loop invariants -/

/-- The loop adds at most one row per unit of fuel: the iteration budget
bounds the number of generated occurrences. -/
theorem genLoop_length (db : List DbBooking) (init : InitialBooking)
    (userId : String) (rt : RepeatType) (endDate : Option CDate) :
    ∀ fuel cur acc,
      (genLoop db init userId rt endDate fuel cur acc).length ≤
        acc.length + fuel := by
  intro fuel
  induction fuel with
  | zero =>
    intro cur acc
    simp [genLoop]
  | succ f ih =>
    intro cur acc
    simp only [genLoop]
    split
    case isTrue hg =>
      cases hnc : nextCandidate rt init.date cur with
      | some nxt =>
        simp only [hnc]
        by_cases hsb : (!shouldExclude rt cur && !hasConflict db init cur)
          = true
        · simp only [hsb, if_true]
          have := ih nxt (acc ++ [mkRow userId init cur])
          simp only [List.length_append, List.length_cons,
            List.length_nil] at this
          omega
        · simp only [Bool.not_eq_true] at hsb
          simp only [hsb, Bool.false_eq_true, if_false]
          have := ih nxt acc
          omega
      | none =>
        simp only [hnc]
        split <;> simp <;> omega
    case isFalse hg => simp

/-- Every row the loop emits was either already accumulated or records an
accepted candidate: its fields are copied from the request, it was not
excluded by the calendar rule for its repeat type, the conflict query
found nothing, and it passed the end-date guard. -/
theorem genLoop_row_inv (db : List DbBooking) (init : InitialBooking)
    (userId : String) (rt : RepeatType) (endDate : Option CDate) :
    ∀ fuel cur acc,
      ∀ r ∈ genLoop db init userId rt endDate fuel cur acc,
        r ∈ acc ∨
          (r.user_id = userId ∧ r.room_id = init.room_id ∧
           r.title = init.title ∧ r.start_time = init.start_time ∧
           r.end_time = init.end_time ∧ r.remarks = init.remarks ∧
           shouldExclude rt r.date = false ∧
           hasConflict db init r.date = false ∧
           endGuard endDate r.date = true) := by
  intro fuel
  induction fuel with
  | zero =>
    intro cur acc r hr
    simp only [genLoop] at hr
    exact Or.inl hr
  | succ f ih =>
    intro cur acc r hr
    simp only [genLoop] at hr
    by_cases hg : endGuard endDate cur = true
    case neg =>
      simp only [hg] at hr
      simp only [Bool.not_eq_true] at hg
      rw [if_neg (by simp [hg])] at hr
      exact Or.inl hr
    case pos =>
      rw [if_pos hg] at hr
      have haux : ∀ s, s ∈ (if (!shouldExclude rt cur &&
          !hasConflict db init cur) = true
            then acc ++ [mkRow userId init cur] else acc) →
          s ∈ acc ∨
          (s.user_id = userId ∧ s.room_id = init.room_id ∧
           s.title = init.title ∧ s.start_time = init.start_time ∧
           s.end_time = init.end_time ∧ s.remarks = init.remarks ∧
           shouldExclude rt s.date = false ∧
           hasConflict db init s.date = false ∧
           endGuard endDate s.date = true) := by
        intro s hs
        split at hs
        case isTrue hsb =>
          rcases List.mem_append.mp hs with hs1 | hs2
          · exact Or.inl hs1
          · have hrow : s = mkRow userId init cur := by
              simpa using hs2
            subst hrow
            simp only [Bool.and_eq_true, Bool.not_eq_true'] at hsb
            exact Or.inr ⟨rfl, rfl, rfl, rfl, rfl, rfl, hsb.1, hsb.2, hg⟩
        case isFalse hsb => exact Or.inl hs
      cases hnc : nextCandidate rt init.date cur with
      | some nxt =>
        rw [hnc] at hr
        rcases ih nxt _ r hr with hacc2 | hprops
        · exact haux r hacc2
        · exact Or.inr hprops
      | none =>
        rw [hnc] at hr
        exact haux r hr

/-- Dates of emitted rows are valid calendar dates, provided the loop
starts from a valid date and the template's day-of-month is positive. -/
theorem genLoop_valid_dates (db : List DbBooking) (init : InitialBooking)
    (userId : String) (rt : RepeatType) (endDate : Option CDate)
    (ht : 1 ≤ init.date.day) :
    ∀ fuel cur acc, isValidDate cur →
      ∀ r ∈ genLoop db init userId rt endDate fuel cur acc,
        r ∈ acc ∨ isValidDate r.date := by
  intro fuel
  induction fuel with
  | zero =>
    intro cur acc hv r hr
    simp only [genLoop] at hr
    exact Or.inl hr
  | succ f ih =>
    intro cur acc hv r hr
    simp only [genLoop] at hr
    by_cases hg : endGuard endDate cur = true
    case neg =>
      rw [if_neg (by simp [Bool.not_eq_true] at hg ⊢; simp [hg])] at hr
      exact Or.inl hr
    case pos =>
      rw [if_pos hg] at hr
      have haux : ∀ s, s ∈ (if (!shouldExclude rt cur &&
          !hasConflict db init cur) = true
            then acc ++ [mkRow userId init cur] else acc) →
          s ∈ acc ∨ isValidDate s.date := by
        intro s hs
        split at hs
        case isTrue hsb =>
          rcases List.mem_append.mp hs with hs1 | hs2
          · exact Or.inl hs1
          · have hrow : s = mkRow userId init cur := by simpa using hs2
            subst hrow
            exact Or.inr hv
        case isFalse hsb => exact Or.inl hs
      cases hnc : nextCandidate rt init.date cur with
      | some nxt =>
        rw [hnc] at hr
        have hnxt := (nextCandidate_spec rt init.date cur nxt ht hv hnc).2
        rcases ih nxt _ hnxt r hr with hacc2 | hval
        · exact haux r hacc2
        · exact Or.inr hval
      | none =>
        rw [hnc] at hr
        exact haux r hr

/-- Emitted rows carry strictly increasing day numbers: later iterations
only ever append strictly later dates, so the batch is sorted and every
row not already accumulated is dated at the current candidate or later. -/
theorem genLoop_sorted (db : List DbBooking) (init : InitialBooking)
    (userId : String) (rt : RepeatType) (endDate : Option CDate)
    (ht : 1 ≤ init.date.day) :
    ∀ fuel cur acc, isValidDate cur →
      (∀ r ∈ acc, toDays r.date < toDays cur) →
      acc.Pairwise (fun a b => toDays a.date < toDays b.date) →
      ((genLoop db init userId rt endDate fuel cur acc).Pairwise
          (fun a b => toDays a.date < toDays b.date) ∧
        ∀ r ∈ genLoop db init userId rt endDate fuel cur acc,
          r ∈ acc ∨ r.date = cur ∨ toDays cur < toDays r.date) := by
  intro fuel
  induction fuel with
  | zero =>
    intro cur acc hv hacc hpw
    simp only [genLoop]
    exact ⟨hpw, fun r hr => Or.inl hr⟩
  | succ f ih =>
    intro cur acc hv hacc hpw
    simp only [genLoop]
    by_cases hg : endGuard endDate cur = true
    case neg =>
      rw [if_neg (by simp [Bool.not_eq_true] at hg ⊢; simp [hg])]
      exact ⟨hpw, fun r hr => Or.inl hr⟩
    case pos =>
      rw [if_pos hg]
      set acc2 := (if (!shouldExclude rt cur &&
        !hasConflict db init cur) = true
          then acc ++ [mkRow userId init cur] else acc) with hacc2def
      have hacc2mem : ∀ s ∈ acc2, s ∈ acc ∨ s = mkRow userId init cur := by
        intro s hs
        rw [hacc2def] at hs
        split at hs
        · rcases List.mem_append.mp hs with h1 | h2
          · exact Or.inl h1
          · exact Or.inr (by simpa using h2)
        · exact Or.inl hs
      have hacc2pw : acc2.Pairwise
          (fun a b => toDays a.date < toDays b.date) := by
        rw [hacc2def]
        split
        · rw [List.pairwise_append]
          exact ⟨hpw, List.pairwise_singleton _ _,
            fun a ha b hb => by
              have hb2 : b = mkRow userId init cur := by simpa using hb
              subst hb2
              exact hacc a ha⟩
        · exact hpw
      cases hnc : nextCandidate rt init.date cur with
      | some nxt =>
        have hstep := nextCandidate_spec rt init.date cur nxt ht hv hnc
        have hacc2lt : ∀ s ∈ acc2, toDays s.date < toDays nxt := by
          intro s hs
          rcases hacc2mem s hs with h1 | h2
          · exact lt_trans (hacc s h1) hstep.1
          · subst h2
            exact hstep.1
        have hrec := ih nxt acc2 hstep.2 hacc2lt hacc2pw
        refine ⟨hrec.1, ?_⟩
        intro r hr
        rcases hrec.2 r hr with h1 | h2 | h3
        · rcases hacc2mem r h1 with ha | hb
          · exact Or.inl ha
          · subst hb
            exact Or.inr (Or.inl rfl)
        · right
          right
          rw [h2]
          exact hstep.1
        · exact Or.inr (Or.inr (lt_trans hstep.1 h3))
      | none =>
        refine ⟨hacc2pw, ?_⟩
        intro r hr
        rcases hacc2mem r hr with h1 | h2
        · exact Or.inl h1
        · subst h2
          exact Or.inr (Or.inl rfl)

/-- For every repeat type but `daily`, the loop computes the same batch
as the loop without the exclusion-calendar step: no candidate of a
non-`daily` rule is ever dropped by the exclusion calendar. -/
theorem genLoop_eq_noExcl (db : List DbBooking) (init : InitialBooking)
    (userId : String) (rt : RepeatType) (endDate : Option CDate)
    (h : rt ≠ RepeatType.daily) :
    ∀ fuel cur acc, genLoop db init userId rt endDate fuel cur acc =
      genLoopNoExcl db init userId rt endDate fuel cur acc := by
  have hse : ∀ d, shouldExclude rt d = false := by
    intro d
    cases rt with
    | daily => exact absurd rfl h
    | weekly => rfl
    | monthly => rfl
    | custom => rfl
    | other => rfl
  intro fuel
  induction fuel with
  | zero =>
    intro cur acc
    simp [genLoop, genLoopNoExcl]
  | succ f ih =>
    intro cur acc
    simp only [genLoop, genLoopNoExcl, hse, Bool.not_false, Bool.true_and]
    split
    case isTrue hg =>
      cases hnc : nextCandidate rt init.date cur with
      | some nxt => simp only [hnc, ih]
      | none => simp only [hnc]
    case isFalse hg => rfl

/-! ### The Saturday rule -/

theorem countP_range_mono (p : Nat → Bool) (n m : Nat) (h : n ≤ m) :
    (List.range n).countP p ≤ (List.range m).countP p := by
  induction m with
  | zero =>
    have : n = 0 := by omega
    subst this
    exact le_refl _
  | succ k ih =>
    rcases Nat.lt_or_ge n (k + 1) with hlt | hge
    · have hle := ih (by omega)
      rw [List.range_succ, List.countP_append]
      omega
    · have : n = k + 1 := by omega
      subst this
      exact le_refl _

/-- The Saturday index of a date never exceeds the number of Saturdays
of its whole month. -/
theorem saturdayCount_le_total (d : CDate) (h : isValidDate d) :
    saturdayCount d ≤ totalSaturdaysInMonth d :=
  countP_range_mono _ _ _ h.2.2.2

/-- The final exclusion rule, characterised: a date is excluded exactly
when it is a Friday, or a Saturday whose index in its month is 1, 3
or 4 (the `totalSaturdaysInMonth >= 4` guard of the source is implied
by the index being 4). -/
theorem shouldExcludeDaily_iff (d : CDate) (h : isValidDate d) :
    shouldExcludeDaily d = true ↔
      (dayOfWeek d = 5 ∨ (dayOfWeek d = 6 ∧
        (saturdayCount d = 1 ∨ saturdayCount d = 3 ∨
          saturdayCount d = 4))) := by
  have hct := saturdayCount_le_total d h
  unfold shouldExcludeDaily
  simp only [beq_iff_eq, Bool.or_eq_true]
  split_ifs with h5 h6 h13 h4 hge <;>
    simp_all <;> omega



theorem toDays_day_shift (y m dd : Nat) :
    toDays ⟨y, m, dd⟩ = toDays ⟨y, m, 1⟩ + (dd - 1) := by
  rw [toDays_mk, toDays_mk]
  omega

theorem dayOfWeek_shift (y m dd : Nat) :
    dayOfWeek ⟨y, m, dd⟩ = (dayOfWeek ⟨y, m, 1⟩ + (dd - 1)) % 7 := by
  unfold dayOfWeek
  rw [toDays_day_shift]
  omega

theorem saturdayCount_eq_satAux (d : CDate) :
    saturdayCount d = satAux (dayOfWeek ⟨d.year, d.month, 1⟩) d.day := by
  unfold saturdayCount satAux
  apply List.countP_congr
  intro i hi
  rw [dayOfWeek_shift]
  simp

theorem totalSaturdays_eq_satAux (d : CDate) :
    totalSaturdaysInMonth d =
      satAux (dayOfWeek ⟨d.year, d.month, 1⟩)
        (daysInMonth d.year d.month) := by
  unfold totalSaturdaysInMonth satAux
  apply List.countP_congr
  intro i hi
  rw [dayOfWeek_shift]
  simp



theorem shouldExcludeDaily_eq_aux (d : CDate) :
    shouldExcludeDaily d =
      exclFinalAux (dayOfWeek ⟨d.year, d.month, 1⟩) d.day
        (daysInMonth d.year d.month) := by
  obtain ⟨y, m, dd⟩ := d
  simp only [shouldExcludeDaily, exclFinalAux]
  rw [dayOfWeek_shift y m dd, saturdayCount_eq_satAux ⟨y, m, dd⟩,
    totalSaturdays_eq_satAux ⟨y, m, dd⟩]

theorem shouldExcludeDailyEarlier_eq_aux (d : CDate) :
    shouldExcludeDailyEarlier d =
      exclEarlierAux (dayOfWeek ⟨d.year, d.month, 1⟩) d.day := by
  obtain ⟨y, m, dd⟩ := d
  simp only [shouldExcludeDailyEarlier, exclEarlierAux, getWeekOfMonth,
    womAux]
  rw [dayOfWeek_shift y m dd]


theorem exclAuxCheck_all : ∀ w < 7, ∀ len < 32, ∀ dd < 32,
    exclAuxCheck w len dd = true := by
  decide

/-- Finite check: on every start-weekday/month-length/day combination a
Gregorian month can exhibit, the earlier and the final exclusion rules
coincide. -/
theorem exclAux_agree : ∀ w < 7, ∀ len < 32, ∀ dd < 32,
    28 ≤ len → 1 ≤ dd → dd ≤ len →
    exclEarlierAux w dd = exclFinalAux w dd len := by
  intro w hw len hlen dd hdd h1 h2 h3
  have hc := exclAuxCheck_all w hw len hlen dd hdd
  unfold exclAuxCheck at hc
  simpa [h1, h2, h3] using hc

/-- The two revisions of the exclusion rule agree on every valid date. -/
theorem exclVariants_agree (d : CDate) (h : isValidDate d) :
    shouldExcludeDailyEarlier d = shouldExcludeDaily d := by
  obtain ⟨hm1, hm2, hd1, hd2⟩ := h
  have hw : dayOfWeek ⟨d.year, d.month, 1⟩ < 7 :=
    Nat.mod_lt _ (by omega)
  have hb := daysInMonth_bounds d.year d.month hm1 hm2
  rw [shouldExcludeDailyEarlier_eq_aux, shouldExcludeDaily_eq_aux]
  exact exclAux_agree _ hw _ (by omega) _ (by omega) hb.1 hd1 hd2

/-- Every row the daily loop can emit is dated strictly less than `fuel`
days past the current candidate date: candidate dates advance one day
per unit of fuel. -/
theorem genLoop_daily_bound (db : List DbBooking) (init : InitialBooking)
    (userId : String) (endDate : Option CDate) :
    ∀ fuel cur acc, isValidDate cur →
      ∀ r ∈ genLoop db init userId RepeatType.daily endDate fuel cur acc,
        r ∈ acc ∨ ∃ k, k < fuel ∧ toDays r.date = toDays cur + k := by
  intro fuel
  induction fuel with
  | zero =>
    intro cur acc hv r hr
    simp only [genLoop] at hr
    exact Or.inl hr
  | succ f ih =>
    intro cur acc hv r hr
    simp only [genLoop] at hr
    by_cases hg : endGuard endDate cur = true
    case neg =>
      rw [if_neg (by simp [Bool.not_eq_true] at hg ⊢; simp [hg])] at hr
      exact Or.inl hr
    case pos =>
      rw [if_pos hg] at hr
      have hnc : nextCandidate RepeatType.daily init.date cur =
          some (nextDay cur) := rfl
      rw [hnc] at hr
      have hstep := toDays_nextDay cur hv
      have hvn := isValidDate_nextDay cur hv
      rcases ih (nextDay cur) _ hvn r hr with hacc2 | ⟨k, hk, hkeq⟩
      · split at hacc2
        case isTrue hsb =>
          rcases List.mem_append.mp hacc2 with h1 | h2
          · exact Or.inl h1
          · have hrow : r = mkRow userId init cur := by simpa using h2
            subst hrow
            exact Or.inr ⟨0, by omega, by simp [mkRow]⟩
        case isFalse hsb => exact Or.inl hacc2
      · exact Or.inr ⟨k + 1, by omega, by omega⟩

/-! ### Claims -/

/-- Claim C3: for repeat type daily, a candidate date is excluded exactly
when its weekday is Friday, or its weekday is Saturday and it is the
1st, 3rd, or 4th Saturday of its month counted from the start of that
month (the month always having at least as many Saturdays in total as
the date's Saturday index, the source's 4-Saturday guard never blocks
the 4th Saturday); the 2nd Saturday of a month is never excluded. -/
theorem daily_exclusion_characterisation (d : CDate)
    (h : isValidDate d) :
    (shouldExcludeDaily d = true ↔
      (dayOfWeek d = 5 ∨ (dayOfWeek d = 6 ∧
        (saturdayCount d = 1 ∨ saturdayCount d = 3 ∨
          saturdayCount d = 4)))) ∧
    (dayOfWeek d = 6 → saturdayCount d = 2 →
      shouldExcludeDaily d = false) := by
  have hiff := shouldExcludeDaily_iff d h
  refine ⟨hiff, ?_⟩
  intro h6 h2
  cases hx : shouldExcludeDaily d with
  | false => rfl
  | true =>
    rcases hiff.mp hx with h5 | ⟨_, hc⟩
    · omega
    · omega

/-- Witness for C3 at the 2nd Saturday of January 2024 (2024-01-13):
the date is valid and not excluded. -/
theorem daily_exclusion_characterisation_witness :
    shouldExcludeDaily ⟨2024, 1, 13⟩ = false :=
  (daily_exclusion_characterisation ⟨2024, 1, 13⟩ (by decide)).2
    (by decide) (by decide)

/-- Claim C5: the monthly stepping branch advances the month index by
exactly one each step and re-clamps the day-of-month from the template's
original day each time; stepping the Jan 31 template lands on Feb 28
(non-leap 2023) or Feb 29 (leap 2024) and the following step lands on
Mar 31, with no cumulative drift. -/
theorem monthly_step_clamps_from_template :
    (∀ t cur : CDate,
      12 * (monthlyNext t cur).year + (monthlyNext t cur).month =
        12 * cur.year + cur.month + 1) ∧
    (∀ t cur : CDate, (monthlyNext t cur).day =
      min t.day (daysInMonth (monthlyNext t cur).year
        (monthlyNext t cur).month)) ∧
    monthlyNext ⟨2023, 1, 31⟩ ⟨2023, 1, 31⟩ = ⟨2023, 2, 28⟩ ∧
    monthlyNext ⟨2023, 1, 31⟩ ⟨2023, 2, 28⟩ = ⟨2023, 3, 31⟩ ∧
    monthlyNext ⟨2024, 1, 31⟩ ⟨2024, 1, 31⟩ = ⟨2024, 2, 29⟩ ∧
    monthlyNext ⟨2024, 1, 31⟩ ⟨2024, 2, 29⟩ = ⟨2024, 3, 31⟩ := by
  refine ⟨fun t cur => monthlyNext_monthIndex t cur, fun t cur => ?_,
    by decide, by decide, by decide, by decide⟩
  simp [monthlyNext]

/-- Claim C6: the insert batch never contains a row replicating the
template's own date, start time and end time: the template filter
removes every such row before the bulk insert. -/
theorem template_row_never_inserted :
    ∀ (db : List DbBooking) (init : InitialBooking) (rt : RepeatType)
      (e : Option CDate) (u : String),
      ∀ r ∈ filteredBookingsToInsert db init rt e u,
        ¬(r.date = init.date ∧ r.start_time = init.start_time ∧
          r.end_time = init.end_time) := by
  intro db init rt e u r hr hcontra
  unfold filteredBookingsToInsert at hr
  have hpred := (List.mem_filter.mp hr).2
  simp [hcontra.1, hcontra.2.1, hcontra.2.2] at hpred

set_option maxHeartbeats 4000000 in
/-- Witness for C6: on the weekly end-to-end example the first inserted
row (2024-01-08) does not replicate the template combination. -/
theorem template_row_never_inserted_witness :
    ¬((mkRow "user-1" sampleBooking ⟨2024, 1, 8⟩).date =
        sampleBooking.date ∧
      (mkRow "user-1" sampleBooking ⟨2024, 1, 8⟩).start_time =
        sampleBooking.start_time ∧
      (mkRow "user-1" sampleBooking ⟨2024, 1, 8⟩).end_time =
        sampleBooking.end_time) :=
  template_row_never_inserted [] sampleBooking RepeatType.weekly
    (some ⟨2024, 1, 22⟩) "user-1"
    (mkRow "user-1" sampleBooking ⟨2024, 1, 8⟩) (by decide)

/-- Claim C8 fails: there is no calendar date on which the earlier
(`getWeekOfMonth`-based) and the final (`saturdayCount`-based) revisions
of the weekend-exclusion rule disagree. -/
theorem excl_revisions_disagree_counterexample :
    ¬ ∃ d : CDate, isValidDate d ∧
      shouldExcludeDailyEarlier d ≠ shouldExcludeDaily d := by
  rintro ⟨d, hv, hne⟩
  exact hne (exclVariants_agree d hv)

/-- Claim C8 (amended): the two successive revisions of the
weekend-exclusion rule are extensionally consistent — the earlier
variant's predicate (Friday, or Saturday with week-of-month 1, 3 or 4)
and the final variant's predicate (Friday, or Saturday count 1 or 3, or
4 when the month has at least 4 Saturdays) agree on every valid
calendar date. -/
theorem excl_revisions_agree (d : CDate) (h : isValidDate d) :
    shouldExcludeDailyEarlier d = shouldExcludeDaily d :=
  exclVariants_agree d h

/-- Witness for amended C8 at the 4th Saturday of March 2024. -/
theorem excl_revisions_agree_witness :
    shouldExcludeDailyEarlier ⟨2024, 3, 23⟩ =
      shouldExcludeDaily ⟨2024, 3, 23⟩ :=
  excl_revisions_agree ⟨2024, 3, 23⟩ (by decide)

set_option maxHeartbeats 4000000 in
/-- Claim C1 fails for repeat type custom: the source consults the
exclusion calendar only under `repeatType === 'daily'`, so a custom
repeat starting Thursday 2024-01-04 with end date 2024-01-05 inserts an
occurrence on Friday 2024-01-05. -/
theorem custom_not_filtered_counterexample :
    dayOfWeek ⟨2024, 1, 5⟩ = 5 ∧
      filteredBookingsToInsert [] thursdayBooking RepeatType.custom
          (some ⟨2024, 1, 5⟩) "user-1" =
        [mkRow "user-1" thursdayBooking ⟨2024, 1, 5⟩] := by
  constructor
  · decide
  · decide

/-- Claim C1 (amended): the exclusion calendar is applied when and only
when the repeat type is daily — no daily occurrence falls on a Friday
or on a 1st/3rd/4th Saturday, while for every other repeat type
(weekly, monthly, custom included) the generated batch equals the batch
of the loop with the exclusion step removed. -/
theorem exclusion_applied_iff_daily :
    (∀ (db : List DbBooking) (init : InitialBooking) (e : Option CDate)
        (u : String), isValidDate init.date →
      ∀ r ∈ filteredBookingsToInsert db init RepeatType.daily e u,
        dayOfWeek r.date ≠ 5 ∧
          ¬(dayOfWeek r.date = 6 ∧ (saturdayCount r.date = 1 ∨
            saturdayCount r.date = 3 ∨ saturdayCount r.date = 4))) ∧
    (∀ (db : List DbBooking) (init : InitialBooking) (e : Option CDate)
        (u : String) (rt : RepeatType), rt ≠ RepeatType.daily →
      generateBookings db init rt e u =
        generateBookingsNoExcl db init rt e u) := by
  constructor
  · intro db init e u hv r hr
    unfold filteredBookingsToInsert at hr
    have hmem : r ∈ generateBookings db init RepeatType.daily e u :=
      (List.mem_filter.mp hr).1
    unfold generateBookings at hmem
    have hinv := genLoop_row_inv db init u RepeatType.daily e
      MAX_ITERATIONS init.date [] r hmem
    rcases hinv with habs | hprops
    · simp at habs
    have hvd := genLoop_valid_dates db init u RepeatType.daily e
      hv.2.2.1 MAX_ITERATIONS init.date [] hv r hmem
    rcases hvd with habs | hval
    · simp at habs
    have hexcl : shouldExcludeDaily r.date = false :=
      hprops.2.2.2.2.2.2.1
    have hiff := shouldExcludeDaily_iff r.date hval
    rw [hexcl] at hiff
    simp only [Bool.false_eq_true, false_iff] at hiff
    push_neg at hiff
    refine ⟨hiff.1, fun hcon => ?_⟩
    have h2 := hiff.2 hcon.1
    rcases hcon.2 with hc | hc | hc
    · exact h2.1 hc
    · exact h2.2.1 hc
    · exact h2.2.2 hc
  · intro db init e u rt hrt
    unfold generateBookings generateBookingsNoExcl
    exact genLoop_eq_noExcl db init u rt e hrt MAX_ITERATIONS init.date []

set_option maxHeartbeats 4000000 in
/-- Witness for amended C1: a daily row of the 2024-01-01..03 run is not
on an excluded date, and the weekly batch coincides with the
exclusion-free batch on the end-to-end example. -/
theorem exclusion_applied_iff_daily_witness :
    dayOfWeek (mkRow "user-1" sampleBooking ⟨2024, 1, 2⟩).date ≠ 5 ∧
      generateBookings [] sampleBooking RepeatType.weekly
          (some ⟨2024, 1, 22⟩) "user-1" =
        generateBookingsNoExcl [] sampleBooking RepeatType.weekly
          (some ⟨2024, 1, 22⟩) "user-1" :=
  ⟨(exclusion_applied_iff_daily.1 [] sampleBooking (some ⟨2024, 1, 3⟩)
      "user-1" (by decide)
      (mkRow "user-1" sampleBooking ⟨2024, 1, 2⟩) (by decide)).1,
    exclusion_applied_iff_daily.2 [] sampleBooking (some ⟨2024, 1, 22⟩)
      "user-1" RepeatType.weekly (by decide)⟩

set_option maxHeartbeats 2000000 in
/-- The first five iterations of the daily no-end-date run from
2024-01-01: four rows are pushed and Friday 2024-01-05 is dropped by
the exclusion calendar, so five units of the iteration budget yield
only four rows. -/
theorem genLoop_daily_prefix (fuel : Nat) (acc : List BookingRow) :
    genLoop [] sampleBooking "user-1" RepeatType.daily none (fuel + 5)
        ⟨2024, 1, 1⟩ acc =
      genLoop [] sampleBooking "user-1" RepeatType.daily none fuel
        ⟨2024, 1, 6⟩
        (acc ++ [mkRow "user-1" sampleBooking ⟨2024, 1, 1⟩] ++
          [mkRow "user-1" sampleBooking ⟨2024, 1, 2⟩] ++
          [mkRow "user-1" sampleBooking ⟨2024, 1, 3⟩] ++
          [mkRow "user-1" sampleBooking ⟨2024, 1, 4⟩]) := by
  rfl

/-- Claim C2 fails in its middle conjunct: dates dropped by the
exclusion calendar DO count toward the 730 cap. On the daily
no-end-date run from 2024-01-01 the cap is the only stop condition, yet
fewer than 730 occurrences are generated, because dropped candidates
(such as the excluded Friday 2024-01-05) consume iteration budget. -/
theorem cap_counts_excluded_dates_counterexample :
    (generateBookings [] sampleBooking RepeatType.daily none
        "user-1").length < 730 ∧
      shouldExcludeDaily ⟨2024, 1, 5⟩ = true := by
  constructor
  · have hgen : generateBookings [] sampleBooking RepeatType.daily none
        "user-1" =
        genLoop [] sampleBooking "user-1" RepeatType.daily none (725 + 5)
          ⟨2024, 1, 1⟩ [] := rfl
    rw [hgen, genLoop_daily_prefix 725 []]
    have hlen := genLoop_length [] sampleBooking "user-1"
      RepeatType.daily none 725 ⟨2024, 1, 6⟩
      (([] : List BookingRow) ++
        [mkRow "user-1" sampleBooking ⟨2024, 1, 1⟩] ++
        [mkRow "user-1" sampleBooking ⟨2024, 1, 2⟩] ++
        [mkRow "user-1" sampleBooking ⟨2024, 1, 3⟩] ++
        [mkRow "user-1" sampleBooking ⟨2024, 1, 4⟩])
    simp only [List.length_append, List.length_cons, List.length_nil]
      at hlen
    omega
  · decide

/-- Claim C2 (amended): the loop terminates unconditionally under the
hard 730-iteration cap, every candidate examined — dropped or not —
counting toward it: at most 730 occurrences are ever generated, and
every daily occurrence is dated at most 729 days past the template
date, so the 731st candidate is never generated. -/
theorem cap_bounds_iterations :
    (∀ (db : List DbBooking) (init : InitialBooking) (rt : RepeatType)
        (e : Option CDate) (u : String),
      (generateBookings db init rt e u).length ≤ MAX_ITERATIONS) ∧
    (∀ (db : List DbBooking) (init : InitialBooking) (e : Option CDate)
        (u : String), isValidDate init.date →
      ∀ r ∈ generateBookings db init RepeatType.daily e u,
        ∃ k, k ≤ 729 ∧ toDays r.date = toDays init.date + k) := by
  constructor
  · intro db init rt e u
    have := genLoop_length db init u rt e MAX_ITERATIONS init.date []
    simpa [generateBookings] using this
  · intro db init e u hv r hr
    unfold generateBookings at hr
    have := genLoop_daily_bound db init u e MAX_ITERATIONS init.date []
      hv r hr
    rcases this with habs | ⟨k, hk, hkeq⟩
    · simp at habs
    · have hk2 : k < 730 := by simpa [MAX_ITERATIONS] using hk
      exact ⟨k, by omega, hkeq⟩

set_option maxHeartbeats 4000000 in
/-- Witness for amended C2 on small runs: length bound on the weekly
example, and an explicit day offset for a daily occurrence. -/
theorem cap_bounds_iterations_witness :
    (generateBookings [] sampleBooking RepeatType.weekly
        (some ⟨2024, 1, 22⟩) "user-1").length ≤ MAX_ITERATIONS ∧
      ∃ k, k ≤ 729 ∧
        toDays (mkRow "user-1" sampleBooking ⟨2024, 1, 2⟩).date =
          toDays sampleBooking.date + k :=
  ⟨cap_bounds_iterations.1 [] sampleBooking RepeatType.weekly
      (some ⟨2024, 1, 22⟩) "user-1",
    cap_bounds_iterations.2 [] sampleBooking (some ⟨2024, 1, 3⟩)
      "user-1" (by decide)
      (mkRow "user-1" sampleBooking ⟨2024, 1, 2⟩) (by decide)⟩

/-- Claim C4: whenever the conflict query would return an existing
booking of the same room and date whose half-open interval overlaps the
candidate's (`existing.start < candidate.end` and
`existing.end > candidate.start`, the initial booking itself not
counting), no row for that date reaches the insert batch (hence it is
absent from the returned count), and the skip is silent: with a
succeeding storage collaborator the pipeline still answers 200 with the
batch length as count. -/
theorem conflicting_candidate_skipped :
    ∀ (db : List DbBooking) (init : InitialBooking) (rt : RepeatType)
      (e : Option CDate) (u : String) (d : CDate) (b : DbBooking),
      b ∈ db → b.room_id = init.room_id → b.date = d →
      b.start_time < init.end_time → init.start_time < b.end_time →
      b.id ≠ init.id →
      (∀ r ∈ filteredBookingsToInsert db init rt e u, r.date ≠ d) ∧
        handleRequest db init rt e u (fun _ => none) =
          ⟨200, RespBody.ok successMessage
            (filteredBookingsToInsert db init rt e u).length⟩ := by
  intro db init rt e u d b hbdb hroom hdate hst het hid
  have hbmem : b ∈ conflictsFor db init d := by
    unfold conflictsFor
    rw [List.mem_filter]
    refine ⟨hbdb, ?_⟩
    simp [hroom, hdate, hst, het, hid]
  have hcon : hasConflict db init d = true := by
    unfold hasConflict
    simp only [decide_eq_true_eq]
    exact List.length_pos.mpr (List.ne_nil_of_mem hbmem)
  constructor
  · intro r hr hrd
    unfold filteredBookingsToInsert at hr
    have hmem := (List.mem_filter.mp hr).1
    unfold generateBookings at hmem
    have hinv := genLoop_row_inv db init u rt e MAX_ITERATIONS init.date
      [] r hmem
    rcases hinv with habs | hprops
    · simp at habs
    have hnc : hasConflict db init r.date = false :=
      hprops.2.2.2.2.2.2.2.1
    rw [hrd, hcon] at hnc
    exact Bool.true_eq_false ▸ hnc
  · unfold handleRequest finishInsert
    split
    · rfl
    · rfl

set_option maxHeartbeats 4000000 in
/-- Witness for C4: with R1 occupied on 2024-01-15 10:00-11:00, the
weekly run never inserts a row dated 2024-01-15, and the call still
succeeds. -/
theorem conflicting_candidate_skipped_witness :
    (mkRow "user-1" sampleBooking ⟨2024, 1, 8⟩).date ≠
        (⟨2024, 1, 15⟩ : CDate) ∧
      handleRequest [existingBooking] sampleBooking RepeatType.weekly
          (some ⟨2024, 1, 22⟩) "user-1" (fun _ => none) =
        ⟨200, RespBody.ok successMessage
          (filteredBookingsToInsert [existingBooking] sampleBooking
            RepeatType.weekly (some ⟨2024, 1, 22⟩) "user-1").length⟩ :=
  ⟨(conflicting_candidate_skipped [existingBooking] sampleBooking
      RepeatType.weekly (some ⟨2024, 1, 22⟩) "user-1" ⟨2024, 1, 15⟩
      existingBooking (by decide) (by decide) (by decide) (by decide)
      (by decide) (by decide)).1
      (mkRow "user-1" sampleBooking ⟨2024, 1, 8⟩) (by decide),
    (conflicting_candidate_skipped [existingBooking] sampleBooking
      RepeatType.weekly (some ⟨2024, 1, 22⟩) "user-1" ⟨2024, 1, 15⟩
      existingBooking (by decide) (by decide) (by decide) (by decide)
      (by decide) (by decide)).2⟩

/-- Claim C7: a failing bulk insert fails the whole call — the storage
error message is surfaced verbatim in a 500 error payload — and every
200 response carries the success body with the batch length as count,
which is only reachable when the batch was empty or the insert
succeeded. -/
theorem insert_failure_is_fatal :
    (∀ (db : List DbBooking) (init : InitialBooking) (rt : RepeatType)
        (e : Option CDate) (u : String)
        (insertFn : List BookingRow → Option String) (msg : String),
      insertFn (filteredBookingsToInsert db init rt e u) = some msg →
      0 < (filteredBookingsToInsert db init rt e u).length →
      handleRequest db init rt e u insertFn = ⟨500, RespBody.err msg⟩) ∧
    (∀ (db : List DbBooking) (init : InitialBooking) (rt : RepeatType)
        (e : Option CDate) (u : String)
        (insertFn : List BookingRow → Option String),
      (handleRequest db init rt e u insertFn).status = 200 →
      (handleRequest db init rt e u insertFn).body =
          RespBody.ok successMessage
            (filteredBookingsToInsert db init rt e u).length ∧
        ((filteredBookingsToInsert db init rt e u).length = 0 ∨
          insertFn (filteredBookingsToInsert db init rt e u) = none)) := by
  constructor
  · intro db init rt e u insertFn msg hmsg hpos
    unfold handleRequest finishInsert
    rw [if_pos hpos, hmsg]
  · intro db init rt e u insertFn hst
    unfold handleRequest finishInsert at hst ⊢
    by_cases hpos : 0 < (filteredBookingsToInsert db init rt e u).length
    · rw [if_pos hpos] at hst ⊢
      cases hins : insertFn (filteredBookingsToInsert db init rt e u) with
      | some m =>
        simp only [hins] at hst
        simp at hst
      | none =>
        simp [hins]
    · rw [if_neg hpos] at hst ⊢
      exact ⟨rfl, Or.inl (by omega)⟩

set_option maxHeartbeats 4000000 in
/-- Witness for C7: a storage collaborator failing with a message turns
the weekly example into a 500 error response carrying that message. -/
theorem insert_failure_is_fatal_witness :
    handleRequest [] sampleBooking RepeatType.weekly (some ⟨2024, 1, 22⟩)
        "user-1" (fun _ => some "storage failure") =
      ⟨500, RespBody.err "storage failure"⟩ :=
  insert_failure_is_fatal.1 [] sampleBooking RepeatType.weekly
    (some ⟨2024, 1, 22⟩) "user-1" (fun _ => some "storage failure")
    "storage failure" rfl (by decide)

set_option maxHeartbeats 4000000 in
/-- Claim C9: weekly candidates step by exactly 7 calendar days; a row
is generated only when its date is not after the end date; and the
end-to-end weekly example (template R1, 2024-01-01, 10:00-11:00, end
date 2024-01-22, no existing bookings) inserts exactly the three rows
2024-01-08, 2024-01-15 and 2024-01-22 — the end date itself being a
valid candidate and none dropped by the weekend rule. -/
theorem weekly_end_to_end :
    (∀ t cur : CDate, isValidDate cur →
      ∃ nxt, nextCandidate RepeatType.weekly t cur = some nxt ∧
        toDays nxt = toDays cur + 7) ∧
    (∀ (db : List DbBooking) (init : InitialBooking) (rt : RepeatType)
        (e : CDate) (u : String),
      ∀ r ∈ generateBookings db init rt (some e) u,
        toDays r.date ≤ toDays e) ∧
    filteredBookingsToInsert [] sampleBooking RepeatType.weekly
        (some ⟨2024, 1, 22⟩) "user-1" =
      [mkRow "user-1" sampleBooking ⟨2024, 1, 8⟩,
        mkRow "user-1" sampleBooking ⟨2024, 1, 15⟩,
        mkRow "user-1" sampleBooking ⟨2024, 1, 22⟩] := by
  refine ⟨?_, ?_, by decide⟩
  · intro t cur hv
    exact ⟨addDaysN cur 7, rfl, (addDaysN_spec 7 cur hv).2⟩
  · intro db init rt e u r hr
    unfold generateBookings at hr
    have hinv := genLoop_row_inv db init u rt (some e) MAX_ITERATIONS
      init.date [] r hr
    rcases hinv with habs | hprops
    · simp at habs
    have hg := hprops.2.2.2.2.2.2.2.2
    simp only [endGuard, isBefore, Bool.not_eq_true'] at hg
    simpa using hg

set_option maxHeartbeats 4000000 in
/-- Witness for C9: the weekly step from 2024-01-01 and the end-date
bound of the row dated 2024-01-08. -/
theorem weekly_end_to_end_witness :
    (∃ nxt, nextCandidate RepeatType.weekly sampleBooking.date
        ⟨2024, 1, 1⟩ = some nxt ∧
      toDays nxt = toDays ⟨2024, 1, 1⟩ + 7) ∧
      toDays (mkRow "user-1" sampleBooking ⟨2024, 1, 8⟩).date ≤
        toDays ⟨2024, 1, 22⟩ :=
  ⟨weekly_end_to_end.1 sampleBooking.date ⟨2024, 1, 1⟩ (by decide),
    weekly_end_to_end.2.1 [] sampleBooking RepeatType.weekly
      ⟨2024, 1, 22⟩ "user-1"
      (mkRow "user-1" sampleBooking ⟨2024, 1, 8⟩) (by decide)⟩

/-- Claim C10: every stepping branch yields a strictly later calendar
date, so within one invocation the insert batch holds at most one row
per calendar date, and after the template filter every inserted row is
dated strictly after the template date. -/
theorem steps_strictly_increase :
    (∀ (rt : RepeatType) (t cur nxt : CDate), 1 ≤ t.day →
      isValidDate cur → nextCandidate rt t cur = some nxt →
      toDays cur < toDays nxt) ∧
    (∀ (db : List DbBooking) (init : InitialBooking) (rt : RepeatType)
        (e : Option CDate) (u : String), isValidDate init.date →
      (filteredBookingsToInsert db init rt e u).Pairwise
          (fun a b => a.date ≠ b.date) ∧
        ∀ r ∈ filteredBookingsToInsert db init rt e u,
          toDays init.date < toDays r.date) := by
  constructor
  · intro rt t cur nxt ht hv h
    exact (nextCandidate_spec rt t cur nxt ht hv h).1
  · intro db init rt e u hv
    have hsort := genLoop_sorted db init u rt e hv.2.2.1 MAX_ITERATIONS
      init.date [] hv (by simp) List.Pairwise.nil
    constructor
    · have hsub : (filteredBookingsToInsert db init rt e u).Sublist
          (generateBookings db init rt e u) := by
        unfold filteredBookingsToInsert generateBookings
        exact List.filter_sublist _
      refine ((hsort.1.sublist ?_).imp ?_)
      · unfold generateBookings at hsub
        exact hsub
      · intro a b hlt heq
        rw [heq] at hlt
        exact lt_irrefl _ hlt
    · intro r hr
      unfold filteredBookingsToInsert at hr
      have hr2 := List.mem_filter.mp hr
      have hmem := hr2.1
      unfold generateBookings at hmem
      have hinv := genLoop_row_inv db init u rt e MAX_ITERATIONS
        init.date [] r hmem
      rcases hinv with habs | hprops
      · simp at habs
      rcases hsort.2 r hmem with habs | heq | hlt
      · simp at habs
      · exfalso
        have hpred := hr2.2
        simp [heq, hprops.2.2.2.1, hprops.2.2.2.2.1] at hpred
      · exact hlt

set_option maxHeartbeats 4000000 in
/-- Witness for C10: a concrete strict step and the distinct-dates and
after-template facts on the weekly example. -/
theorem steps_strictly_increase_witness :
    toDays (⟨2024, 1, 1⟩ : CDate) < toDays (nextDay ⟨2024, 1, 1⟩) ∧
      (filteredBookingsToInsert [] sampleBooking RepeatType.weekly
          (some ⟨2024, 1, 22⟩) "user-1").Pairwise
        (fun a b => a.date ≠ b.date) :=
  ⟨steps_strictly_increase.1 RepeatType.daily ⟨2024, 1, 1⟩ ⟨2024, 1, 1⟩
      (nextDay ⟨2024, 1, 1⟩) (by decide) (by decide) rfl,
    (steps_strictly_increase.2 [] sampleBooking RepeatType.weekly
      (some ⟨2024, 1, 22⟩) "user-1" (by decide)).1⟩

end BrightSloth
